import Mathlib

/-!
Shallow embedding of the lexical scanner in `src/main.rs`.

The Rust scanner walks `code.as_bytes()` with a peekable, enumerated
iterator.  The model represents the source buffer as a `List Char`, one
entry per byte (every input considered below is ASCII, where bytes and
characters coincide).  `usize` subtraction wraps modulo `2^64` in the
model, matching the release-profile semantics of the two subtractions
that can go below zero: `col - (lexeme.len() - 1)` in `make_token` and
`i - col + 1` in the error-snippet slice.  `f64` parsing is modelled by
an exact-rational reading of the decimal text: which strings are
accepted follows the Rust grammar, while the rounding of the accepted
value (and the values of inf/nan, modelled as 0) is abstracted; no
theorem below depends on a rounded float value.  The error-snippet slice
`&code[i - col + 1..=i]` is a `&str` slice and panics, in every build
profile, when a bound is not a UTF-8 character boundary; this is the one
slice of the program that can be reached with such a bound (the word-run
and string-payload slices always start and end at ASCII bytes or
positions following them, which are boundaries in valid UTF-8), so it is
modelled by the checked `sliceChecked`, with `none` for the panic.  The
scan loop is written with a fuel parameter (one unit per iterator step);
`tokenize` supplies `code.length`, and `lexRun_fuel_succ` shows the
result does not change under additional fuel, so a `none` result from
`tokenize` is the modelled panic and never fuel exhaustion.
-/

namespace Lexer

/-- The modulus of `usize` arithmetic, `2 ^ 64`. -/
def U64 : Nat := 18446744073709551616

/-- Wrapping `usize` subtraction (for operands below `2 ^ 64`). -/
def usub (a b : Nat) : Nat := if b ≤ a then a - b else a + U64 - b

/-- The slice `&code[a..b]`. -/
def slice (code : List Char) (a b : Nat) : List Char := (code.take b).drop a

/-- Start index `i - col + 1` of the error snippet `&code[i - col + 1..=i]`,
with wrapping `usize` arithmetic. -/
def snippetStart (i col : Nat) : Nat := (usub i col + 1) % U64

/-- Rust `str::is_char_boundary`: position 0 and the end of the buffer are
boundaries, a position past the end is not, and an interior position is a
boundary exactly when its byte is not a UTF-8 continuation byte
(`0x80..=0xBF`). -/
def isCharBoundary (code : List Char) (k : Nat) : Bool :=
  if k = 0 then true
  else if k = code.length then true
  else
    match code.get? k with
    | some c => decide (c.toNat < 128 ∨ 192 ≤ c.toNat)
    | none => false

/-- A `&str` slice `&code[a..b]`: panics (`none`) when the bounds are out
of order, past the end, or not character boundaries. -/
def sliceChecked (code : List Char) (a b : Nat) : Option (List Char) :=
  if a ≤ b ∧ b ≤ code.length ∧ isCharBoundary code a = true ∧ isCharBoundary code b = true then
    some (slice code a b)
  else none

/-- The byte class of the word-run arm
`b'a'..=b'z' | b'A'..=b'Z' | b'_' | b'0'..=b'9' | b'.'` (both the scanned
byte at line 174 and the lookahead byte at line 176 use this class). -/
def isWordChar (c : Char) : Bool :=
  decide ((97 ≤ c.toNat ∧ c.toNat ≤ 122) ∨ (65 ≤ c.toNat ∧ c.toNat ≤ 90) ∨
    c.toNat = 95 ∨ (48 ≤ c.toNat ∧ c.toNat ≤ 57) ∨ c.toNat = 46)

/-- ASCII decimal digit `b'0'..=b'9'`. -/
def isDig (c : Char) : Bool := decide (48 ≤ c.toNat ∧ c.toNat ≤ 57)

/-- ASCII lowercasing of one character, as used by the case-insensitive
comparison against the special float spellings. -/
def lowerChar (c : Char) : Char :=
  if 65 ≤ c.toNat ∧ c.toNat ≤ 90 then Char.ofNat (c.toNat + 32) else c

/-- `TokenKind` from `src/main.rs`; text payloads are byte views. -/
inductive TokenKind where
  | Plus | Minus | Divide | Multiply | Modulo
  | IntegerLiteral (v : Int)
  | FloatLiteral (v : ℚ)
  | StringLiteral (s : List Char)
  | Identifier (s : List Char)
  | Let | Var | Def | Func | Struct | End | Repeat | Until
  | Comma | SemiColon | Colon | Equals | Or | And | Xor
  deriving DecidableEq

/-- `Token` from `src/main.rs`. -/
structure Token where
  kind : TokenKind
  line : Nat
  col : Nat
  deriving DecidableEq

/-- `LexerErrorKind` from `src/main.rs`. -/
inductive LexerErrorKind where
  | UnexpectedEof (s : List Char)
  | InvalidToken
  | UnexpectedCharacter (c : Char)
  deriving DecidableEq

/-- `LexerError` from `src/main.rs`. -/
structure LexerError where
  error_kind : LexerErrorKind
  line : Nat
  col : Nat
  filename : List Char
  snippet : List Char
  deriving DecidableEq

/-- Value of `c` as a digit in the given radix (Rust `char::to_digit`). -/
def digitVal (radix : Nat) (c : Char) : Option Nat :=
  let v : Option Nat :=
    if 48 ≤ c.toNat ∧ c.toNat ≤ 57 then some (c.toNat - 48)
    else if 97 ≤ c.toNat ∧ c.toNat ≤ 122 then some (c.toNat - 87)
    else if 65 ≤ c.toNat ∧ c.toNat ≤ 90 then some (c.toNat - 55)
    else none
  match v with
  | some d => if d < radix then some d else none
  | none => none

/-- Accumulate the digits of the radix, most significant first. -/
def parseDigitsAux (radix : Nat) : List Char → Nat → Option Nat
  | [], acc => some acc
  | c :: cs, acc =>
    match digitVal radix c with
    | some d => parseDigitsAux radix cs (acc * radix + d)
    | none => none

/-- One or more digits of the radix; the empty string is rejected. -/
def parseDigits (radix : Nat) : List Char → Option Nat
  | [] => none
  | c :: cs => parseDigitsAux radix (c :: cs) 0

/-- `i64::MAX`. -/
def i64max : Int := 9223372036854775807

/-- `i64::MIN`. -/
def i64min : Int := -9223372036854775808

/-- Range check of a nonnegative parse result against `i64::MAX`. -/
def intoI64 (n : Nat) : Option Int := if (n : Int) ≤ i64max then some (n : Int) else none

/-- Range check of a negated parse result against `i64::MIN`. -/
def intoNegI64 (n : Nat) : Option Int :=
  if i64min ≤ -(n : Int) then some (-(n : Int)) else none

/-- Rust `i64::from_str_radix` (and `str::parse::<i64>` at radix 10):
optional sign, then one or more digits of the radix, within `i64` range. -/
def from_str_radix (radix : Nat) (s : List Char) : Option Int :=
  match s with
  | [] => none
  | c :: rest =>
    if c = '+' then (parseDigits radix rest).bind intoI64
    else if c = '-' then (parseDigits radix rest).bind intoNegI64
    else (parseDigits radix (c :: rest)).bind intoI64

/-- Decimal value of a digit string (used by the exact float reading). -/
def digitsToNat (l : List Char) : Nat := l.foldl (fun a c => a * 10 + (c.toNat - 48)) 0

/-- Exact rational value of integer part `ip` and fraction part `fp`. -/
def decVal (ip fp : List Char) : ℚ :=
  (digitsToNat ip : ℚ) + (digitsToNat fp : ℚ) / (10 : ℚ) ^ fp.length

/-- Digits of an exponent, with optional sign. -/
def expDigits : List Char → Option Int
  | [] => none
  | c :: rest =>
    if c = '+' then (parseDigits 10 rest).map (fun n => (n : Int))
    else if c = '-' then (parseDigits 10 rest).map (fun n => -(n : Int))
    else (parseDigits 10 (c :: rest)).map (fun n => (n : Int))

/-- Optional `e`/`E` exponent suffix; an empty remainder means exponent 0. -/
def parseExp (s : List Char) : Option Int :=
  match s with
  | [] => some 0
  | c :: rest => if c = 'e' ∨ c = 'E' then expDigits rest else none

/-- Body of `f64::from_str` after the optional sign: the special spellings
(compared ASCII-case-insensitively, values abstracted), or a mantissa with
at least one digit and an optional fraction and exponent. -/
def parseF64Body (s : List Char) : Option ℚ :=
  if s.map lowerChar = ['i', 'n', 'f'] ∨
     s.map lowerChar = ['i', 'n', 'f', 'i', 'n', 'i', 't', 'y'] ∨
     s.map lowerChar = ['n', 'a', 'n'] then some 0
  else
    let ip := s.takeWhile isDig
    let r1 := s.dropWhile isDig
    match r1 with
    | '.' :: r2 =>
      let fp := r2.takeWhile isDig
      let r3 := r2.dropWhile isDig
      if ip = [] ∧ fp = [] then none
      else (parseExp r3).map (fun e => decVal ip fp * (10 : ℚ) ^ e)
    | r2 =>
      if ip = [] then none
      else (parseExp r2).map (fun e => decVal ip [] * (10 : ℚ) ^ e)

/-- Rust `str::parse::<f64>`: acceptance follows the grammar; the accepted
value is the exact rational reading (rounding abstracted). -/
def parse_f64 (s : List Char) : Option ℚ :=
  match s with
  | [] => none
  | c :: rest =>
    if c = '+' then parseF64Body rest
    else if c = '-' then (parseF64Body rest).map Neg.neg
    else parseF64Body (c :: rest)

/-- First character class `[a-zA-Z_]` of the identifier regex. -/
def isIdentStart (c : Char) : Bool :=
  decide ((97 ≤ c.toNat ∧ c.toNat ≤ 122) ∨ (65 ≤ c.toNat ∧ c.toNat ≤ 90) ∨ c.toNat = 95)

/-- Word character `\w` of the identifier regex (ASCII). -/
def isIdentChar (c : Char) : Bool := isIdentStart c || isDig c

/-- The regex `^[a-zA-Z_]+\w*$` from `make_token`. -/
def ident_match (s : List Char) : Bool :=
  match s with
  | [] => false
  | c :: cs => isIdentStart c && cs.all isIdentChar

/-- The first eight arms of the `match lexeme` in `make_token`:
`let`, `def`, `struct`, `func`, `var`, `repeat`, `until`, `end`. -/
def keywordKind? (lexeme : List Char) : Option TokenKind :=
  if lexeme = ['l', 'e', 't'] then some .Let
  else if lexeme = ['d', 'e', 'f'] then some .Def
  else if lexeme = ['s', 't', 'r', 'u', 'c', 't'] then some .Struct
  else if lexeme = ['f', 'u', 'n', 'c'] then some .Func
  else if lexeme = ['v', 'a', 'r'] then some .Var
  else if lexeme = ['r', 'e', 'p', 'e', 'a', 't'] then some .Repeat
  else if lexeme = ['u', 'n', 't', 'i', 'l'] then some .Until
  else if lexeme = ['e', 'n', 'd'] then some .End
  else none

/-- `lexeme.strip_prefix(p)` for the two-byte patterns `0x` and `0b`. -/
def stripTwo (a b : Char) : List Char → Option (List Char)
  | c :: d :: rest => if c = a ∧ d = b then some rest else none
  | _ => none

/-- `make_token` from `src/main.rs` (lines 62-152): corrects the column by
`lexeme.len() - 1` (wrapping), then classifies the lexeme as keyword,
`0x`/`0b`/decimal integer, float, or identifier, in that order. -/
def make_token (lexeme : List Char) (line col : Nat) : Except LexerErrorKind Token :=
  let col := usub col (usub lexeme.length 1)
  match keywordKind? lexeme with
  | some k => .ok ⟨k, line, col⟩
  | none =>
    match stripTwo '0' 'x' lexeme with
    | some stripped =>
      match from_str_radix 16 stripped with
      | some v => .ok ⟨.IntegerLiteral v, line, col⟩
      | none => .error .InvalidToken
    | none =>
      match stripTwo '0' 'b' lexeme with
      | some stripped =>
        match from_str_radix 2 stripped with
        | some v => .ok ⟨.IntegerLiteral v, line, col⟩
        | none => .error .InvalidToken
      | none =>
        match from_str_radix 10 lexeme with
        | some v => .ok ⟨.IntegerLiteral v, line, col⟩
        | none =>
          match parse_f64 lexeme with
          | some v => .ok ⟨.FloatLiteral v, line, col⟩
          | none =>
            if ident_match lexeme then .ok ⟨.Identifier lexeme, line, col⟩
            else .error .InvalidToken

/-- The payload of the unterminated-string error:
`format!("a '{}'", quote)`. -/
def eofExpected (q : Char) : List Char := ['a', ' ', Char.ofNat 39, q, Char.ofNat 39]

/-- Result of the string sub-loop: the token or error, the absolute index
of the next unconsumed byte, and the updated `col` and `i` counters. -/
structure StrScan where
  res : Except LexerErrorKind Token
  nxt : Nat
  col : Nat
  i : Nat

/-- The string sub-loop (lines 244-264): consume until a byte equal to the
opening quote `q`; the payload is `&code[start + 1..x]` where `x` is the
index of the closing quote and `start` is the scan loop's current start
marker.  `col` and `i` advance once per consumed byte. -/
def scanString (code : List Char) (q : Char) (strt line : Nat) :
    List Char → Nat → Nat → Nat → StrScan
  | [], x, col, i => ⟨.error (.UnexpectedEof (eofExpected q)), x, col, i⟩
  | chr :: rest, x, col, i =>
    if chr = q then
      let lexeme := slice code (strt + 1) x
      ⟨.ok ⟨.StringLiteral lexeme, line, usub (col + 1) (lexeme.length + 1)⟩, x + 1,
        col + 1, i + 1⟩
    else scanString code q strt line rest (x + 1) (col + 1) (i + 1)

/-- The error return of the scan loop (lines 269-277): a `LexerError`
carrying the current line, column and filename, and the snippet
`&code[i - col + 1..=i]`; the snippet is a `&str` slice, so a bound that
is not a character boundary panics (`none`). -/
def mkError (code fname : List Char) (ek : LexerErrorKind) (line col i : Nat) :
    Option (Except LexerError (List Token)) :=
  match sliceChecked code (snippetStart i col) (i + 1) with
  | some sn => some (.error ⟨ek, line, col, fname, sn⟩)
  | none => none

/-- The twelve single-byte operator and punctuation arms of the scan loop
(lines 184-243): `, : = ; | & ^ / * + - %`, each an immediate token. -/
def lexSymbol? (c : Char) : Option TokenKind :=
  if c = ',' then some .Comma
  else if c = ':' then some .Colon
  else if c = '=' then some .Equals
  else if c = ';' then some .SemiColon
  else if c = '|' then some .Or
  else if c = '&' then some .And
  else if c = '^' then some .Xor
  else if c = '/' then some .Divide
  else if c = '*' then some .Multiply
  else if c = '+' then some .Plus
  else if c = '-' then some .Minus
  else if c = '%' then some .Modulo
  else none

/-- One iteration of the scan loop of `tokenize` (lines 162-280), for the
scanned byte `c` at absolute position `idx` with start marker `strt`;
`next` re-enters the loop.  Whitespace and newlines update the counters
silently; a word byte either extends the run (lookahead also a word byte)
or hands the run to `make_token`; symbol bytes emit one-byte tokens;
quotes enter the string sub-loop; anything else is `UnexpectedCharacter`.
After a pushed token the start marker becomes `idx` and `col` advances. -/
def lexBody (code fname : List Char)
    (next : Nat → List Token → Nat → Nat → Nat → Option (Except LexerError (List Token)))
    (c : Char) (idx : Nat) (tokens : List Token) (line col strt : Nat) :
    Option (Except LexerError (List Token)) :=
  if c = ' ' ∨ c = '\t' then
    next (idx + 1) tokens line (col + 1) (idx + 1)
  else if c = '\n' then
    next (idx + 1) tokens (line + 1) 1 (idx + 1)
  else if isWordChar c then
    match code.get? (idx + 1) with
    | some d =>
      if isWordChar d then
        next (idx + 1) tokens line (col + 1) strt
      else
        match make_token (slice code strt (idx + 1)) line col with
        | .ok t => next (idx + 1) (tokens ++ [t]) line (col + 1) idx
        | .error ek => mkError code fname ek line col idx
    | none =>
      match make_token (slice code strt idx) line col with
      | .ok t => next (idx + 1) (tokens ++ [t]) line (col + 1) idx
      | .error ek => mkError code fname ek line col idx
  else match lexSymbol? c with
  | some k => next (idx + 1) (tokens ++ [⟨k, line, col⟩]) line (col + 1) idx
  | none =>
  if c.toNat = 34 ∨ c.toNat = 39 then
    let s := scanString code c strt line (code.drop (idx + 1)) (idx + 1) col idx
    match s.res with
    | .ok t => next s.nxt (tokens ++ [t]) line (s.col + 1) idx
    | .error ek => mkError code fname ek line s.col s.i
  else
    mkError code fname (.UnexpectedCharacter c) line col idx

/-- The scan loop of `tokenize` (lines 160-281).  `idx` is the absolute
position of the next byte; one unit of fuel is spent per loop iteration
(the byte at `idx` exists).  `none` arises from the snippet-slice panic
in `mkError`, or from fuel exhaustion; `lexRun_fuel_succ` shows the
result is unchanged by extra fuel once `code.length ≤ fuel + idx`, so
the fuel `tokenize` supplies makes `none` mean the panic alone. -/
def lexRun (code fname : List Char) :
    Nat → Nat → List Token → Nat → Nat → Nat → Option (Except LexerError (List Token))
  | fuel, idx, tokens, line, col, strt =>
    match code.get? idx with
    | none => some (.ok tokens)
    | some c =>
      match fuel with
      | 0 => none
      | fuel + 1 => lexBody code fname (lexRun code fname fuel) c idx tokens line col strt

/-- `tokenize` from `src/main.rs` (lines 154-283). -/
def tokenize (code fname : List Char) : Option (Except LexerError (List Token)) :=
  lexRun code fname code.length 0 [] 1 1 0

end Lexer

deriving instance DecidableEq for Except

namespace Lexer

/-- Two cons lists with distinct head characters are distinct. -/
theorem cons_ne_head {c d : Char} (l l' : List Char) (h : c ≠ d) : c :: l ≠ d :: l' :=
  fun he => h (List.cons.inj he).1

/-- Keyword lookup fails whenever the head character matches the head of no
keyword spelling. -/
theorem keywordKind?_cons_none (c : Char) (l : List Char) (h1 : c ≠ 'l') (h2 : c ≠ 'd')
    (h3 : c ≠ 's') (h4 : c ≠ 'f') (h5 : c ≠ 'v') (h6 : c ≠ 'r') (h7 : c ≠ 'u')
    (h8 : c ≠ 'e') : keywordKind? (c :: l) = none := by
  unfold keywordKind?
  rw [if_neg (cons_ne_head _ _ h1), if_neg (cons_ne_head _ _ h2), if_neg (cons_ne_head _ _ h3),
    if_neg (cons_ne_head _ _ h4), if_neg (cons_ne_head _ _ h5), if_neg (cons_ne_head _ _ h6),
    if_neg (cons_ne_head _ _ h7), if_neg (cons_ne_head _ _ h8)]

/-- On a list all of whose entries satisfy `p`, `takeWhile` keeps everything
and `dropWhile` drops everything. -/
theorem run_all_take {p : Char → Bool} :
    ∀ (l : List Char), l.all p = true → l.takeWhile p = l ∧ l.dropWhile p = [] := by
  intro l
  induction l with
  | nil => exact fun _ => ⟨rfl, rfl⟩
  | cons c cs ih =>
    intro h
    simp only [List.all_cons, Bool.and_eq_true] at h
    obtain ⟨h1, h2⟩ := h
    obtain ⟨ht, hd⟩ := ih h2
    constructor
    · simp [List.takeWhile_cons, h1, ht]
    · simp [List.dropWhile_cons, h1, hd]

/-- The string sub-loop never moves the cursor backwards. -/
theorem scanString_nxt_le (code : List Char) (q : Char) (strt line : Nat) :
    ∀ (rest : List Char) (x col i : Nat), x ≤ (scanString code q strt line rest x col i).nxt := by
  intro rest
  induction rest with
  | nil => intro x col i; simp [scanString]
  | cons chr rest ih =>
    intro x col i
    by_cases h : chr = q
    · simp [scanString, h]
    · simp only [scanString, if_neg h]
      exact Nat.le_trans (Nat.le_succ x) (ih (x + 1) (col + 1) (i + 1))

/-- When no byte of the remainder equals the opening quote, the string
sub-loop consumes everything and reports `UnexpectedEof` naming the quote. -/
theorem scanString_no_close (code : List Char) (q : Char) (strt line : Nat) :
    ∀ (rest : List Char) (x col i : Nat), q ∉ rest →
      scanString code q strt line rest x col i =
        ⟨.error (.UnexpectedEof (eofExpected q)), x + rest.length, col + rest.length,
          i + rest.length⟩ := by
  intro rest
  induction rest with
  | nil => intro x col i _; simp [scanString]
  | cons chr rest ih =>
    intro x col i hmem
    have hne : chr ≠ q := by rintro rfl; exact hmem (List.mem_cons_self _ _)
    have hmem' : q ∉ rest := fun h => hmem (List.mem_cons_of_mem _ h)
    simp only [scanString, if_neg hne]
    rw [ih (x + 1) (col + 1) (i + 1) hmem']
    simp only [StrScan.mk.injEq, List.length_cons, true_and]
    refine ⟨by omega, by omega, by omega⟩

/-- Reading past the end of the buffer yields `none`. -/
theorem get?_len_le (l : List Char) (n : Nat) (h : l.length ≤ n) : l.get? n = none :=
  List.get?_eq_none.mpr h

/-- With fuel at least `code.length - idx`, adding one more unit of fuel
does not change the scan loop's result: each consumed byte advances `idx`,
so the supplied fuel is never the reason a run stops. -/
theorem lexRun_fuel_succ (code fname : List Char) :
    ∀ (fuel idx : Nat) (tokens : List Token) (line col strt : Nat),
      code.length ≤ fuel + idx →
      lexRun code fname fuel idx tokens line col strt =
        lexRun code fname (fuel + 1) idx tokens line col strt := by
  intro fuel
  induction fuel with
  | zero =>
    intro idx tokens line col strt h
    have hg := get?_len_le code idx (by omega)
    simp only [lexRun, hg]
  | succ f ih =>
    intro idx tokens line col strt h
    simp only [lexRun]
    cases hg : code.get? idx with
    | none => rfl
    | some c =>
      simp only []
      unfold lexBody
      repeat' split
      all_goals first
        | rfl
        | (apply ih; omega)
        | (dsimp only
           split
           all_goals first
             | rfl
             | (apply ih
                refine Nat.le_trans (show code.length ≤ f + (idx + 1) by omega) ?_
                exact Nat.add_le_add_left (scanString_nxt_le _ _ _ _ _ _ _ _) f))

/-- A maximal run of decimal digits whose value exceeds `i64::MAX` is
classified by `make_token` as a `FloatLiteral`: the decimal-integer parse
fails on the range check and the float parse accepts the digit string. -/
theorem make_token_digit_overflow_float (lexeme : List Char) (n : Nat) (line col : Nat)
    (hall : lexeme.all isDig = true) (hp : parseDigits 10 lexeme = some n)
    (hmax : i64max < (n : Int)) :
    ∃ v, make_token lexeme line col =
      .ok ⟨.FloatLiteral v, line, usub col (usub lexeme.length 1)⟩ := by
  cases lexeme with
  | nil => simp [parseDigits] at hp
  | cons c cs =>
    have hcall := hall
    simp only [List.all_cons, Bool.and_eq_true] at hcall
    obtain ⟨hc, hcs⟩ := hcall
    have hcn : 48 ≤ c.toNat ∧ c.toNat ≤ 57 := by simpa [isDig] using hc
    have e1 : keywordKind? (c :: cs) = none := by
      apply keywordKind?_cons_none <;> (rintro rfl; revert hcn; decide)
    have e2 : stripTwo '0' 'x' (c :: cs) = none := by
      cases cs with
      | nil => rfl
      | cons d cs' =>
        have hd : isDig d = true := by
          simp only [List.all_cons, Bool.and_eq_true] at hcs
          exact hcs.1
        have hdn : 48 ≤ d.toNat ∧ d.toNat ≤ 57 := by simpa [isDig] using hd
        have hne : ¬(c = '0' ∧ d = 'x') := by rintro ⟨-, rfl⟩; revert hdn; decide
        simp [stripTwo, hne]
    have e3 : stripTwo '0' 'b' (c :: cs) = none := by
      cases cs with
      | nil => rfl
      | cons d cs' =>
        have hd : isDig d = true := by
          simp only [List.all_cons, Bool.and_eq_true] at hcs
          exact hcs.1
        have hdn : 48 ≤ d.toNat ∧ d.toNat ≤ 57 := by simpa [isDig] using hd
        have hne : ¬(c = '0' ∧ d = 'b') := by rintro ⟨-, rfl⟩; revert hdn; decide
        simp [stripTwo, hne]
    have hplus : c ≠ '+' := by rintro rfl; revert hcn; decide
    have hminus : c ≠ '-' := by rintro rfl; revert hcn; decide
    have e4 : from_str_radix 10 (c :: cs) = none := by
      simp only [from_str_radix, if_neg hplus, if_neg hminus, hp, Option.some_bind]
      simp only [i64max] at hmax
      simp [intoI64, i64max]
      omega
    have hlow : lowerChar c = c := by
      unfold lowerChar
      rw [if_neg (by omega : ¬(65 ≤ c.toNat ∧ c.toNat ≤ 90))]
    have hinf : ¬((c :: cs).map lowerChar = ['i', 'n', 'f'] ∨
        (c :: cs).map lowerChar = ['i', 'n', 'f', 'i', 'n', 'i', 't', 'y'] ∨
        (c :: cs).map lowerChar = ['n', 'a', 'n']) := by
      simp only [List.map_cons, hlow]
      push_neg
      refine ⟨?_, ?_, ?_⟩ <;> exact cons_ne_head _ _ (by rintro rfl; revert hcn; decide)
    obtain ⟨htw, hdw⟩ := run_all_take (c :: cs) hall
    have e5 : parse_f64 (c :: cs) = some (decVal (c :: cs) [] * (10 : ℚ) ^ (0 : ℤ)) := by
      simp only [parse_f64, if_neg hplus, if_neg hminus]
      unfold parseF64Body
      rw [if_neg hinf]
      simp only [htw, hdw]
      simp [parseExp]
    refine ⟨decVal (c :: cs) [] * (10 : ℚ) ^ (0 : ℤ), ?_⟩
    unfold make_token
    simp only [e1, e2, e3, e4, e5]

end Lexer

namespace Lexer

/-- Claim C1: the claim states that tokenizing the bare input `abc123`
yields exactly one token `Identifier("abc123")`, the whole run including
its last character.  The code instead slices `&code[start..idx]` when the
run ends because the input ends (line 182), dropping the final byte: the
result is one token `Identifier("abc12")` at column 2.  `make_token`
itself, and the same run followed by a space (where the lookahead branch
slices through `next_idx`), both produce `Identifier("abc123")` at
column 1, showing the end-of-input branch is the slip. -/
theorem c1_eof_word_run_truncated :
    tokenize ("abc123".toList) ("test.jasm".toList) =
      some (.ok [⟨.Identifier ("abc12".toList), 1, 2⟩]) ∧
    make_token ("abc123".toList) 1 6 = .ok ⟨.Identifier ("abc123".toList), 1, 1⟩ ∧
    tokenize ("abc123 ".toList) ("test.jasm".toList) =
      some (.ok [⟨.Identifier ("abc123".toList), 1, 1⟩]) := by
  refine ⟨by decide, by decide, by decide⟩

/-- Claim C2: the claim states that the column correction
`col - (lexeme.len() - 1)` never underflows, even for an empty classified
lexeme.  On the one-byte input `x` the end-of-input branch classifies the
empty slice `&code[0..0]`, and `lexeme.len() - 1` underflows `usize`
(wrapping here, a panic under debug overflow checks): the empty lexeme
fails every class, so the scan returns an `InvalidToken` error instead of
`Identifier("x")`. -/
theorem c2_empty_lexeme_underflow :
    usub 0 1 = U64 - 1 ∧
    make_token ([] : List Char) 1 1 = .error .InvalidToken ∧
    tokenize ("x".toList) ("test.jasm".toList) =
      some (.error ⟨.InvalidToken, 1, 1, "test.jasm".toList, "x".toList⟩) := by
  refine ⟨by decide, by decide, by decide⟩

/-- Claim C3: the claim states that for input `let\n  x` the token for `x`
reports line 2, column 3.  The code never emits that token: the
one-character run `x` ends at end of input, the slice `&code[start..idx]`
is empty, and the scan returns an `InvalidToken` error at line 2 column 3
(with snippet `  x`).  `make_token` applied to the intended lexeme `x` at
the run-end column 3 would have produced `Identifier("x")` at (2, 3). -/
theorem c3_position_example_errors :
    tokenize ("let\n  x".toList) ("test.jasm".toList) =
      some (.error ⟨.InvalidToken, 2, 3, "test.jasm".toList, "  x".toList⟩) ∧
    make_token ("x".toList) 2 3 = .ok ⟨.Identifier ("x".toList), 2, 3⟩ := by
  refine ⟨by decide, by decide⟩

/-- Claim C4: the claim states the string payload is exactly the text
strictly between the quotes for every position of the string, including
immediately after a preceding token.  After a pushed token the code sets
`start = idx` (the last byte of that token, line 279) rather than past it,
so for input `,"hi"` the payload slice `&code[start + 1..x]` starts at the
opening quote: the emitted token is `StringLiteral("\"hi")`.  At the start
of the buffer and after whitespace the payload is correct. -/
theorem c4_string_payload_after_token :
    tokenize (",\"hi\"".toList) ("test.jasm".toList) =
      some (.ok [⟨.Comma, 1, 1⟩, ⟨.StringLiteral ("\"hi".toList), 1, 1⟩]) ∧
    tokenize ("\"hi\"".toList) ("test.jasm".toList) =
      some (.ok [⟨.StringLiteral ("hi".toList), 1, 1⟩]) ∧
    tokenize (" \"hi\"".toList) ("test.jasm".toList) =
      some (.ok [⟨.StringLiteral ("hi".toList), 1, 2⟩]) := by
  refine ⟨by decide, by decide, by decide⟩

/-- Claim C5: the claim states that bare `endx` is one token
`Identifier("endx")`.  Because the end-of-input branch drops the last byte
of the run (line 182), the classified lexeme is `end`, which matches the
keyword table: the code emits the single keyword token `End`.
`make_token` on the full run, and the same input followed by a space,
produce `Identifier("endx")`, and `make_token` on `end` produces the
keyword, as the claim's positive half states. -/
theorem c5_endx_keyword_not_identifier :
    tokenize ("endx".toList) ("test.jasm".toList) = some (.ok [⟨.End, 1, 2⟩]) ∧
    make_token ("endx".toList) 1 4 = .ok ⟨.Identifier ("endx".toList), 1, 1⟩ ∧
    make_token ("end".toList) 1 3 = .ok ⟨.End, 1, 1⟩ ∧
    tokenize ("endx ".toList) ("test.jasm".toList) =
      some (.ok [⟨.Identifier ("endx".toList), 1, 1⟩]) := by
  refine ⟨by decide, by decide, by decide, by decide⟩

/-- Claim C6: a word-run starting with `0x` (resp. `0b`) commits to
integer-literal parsing: whenever the radix parse of the remainder fails,
`make_token` returns `InvalidToken` and never falls through to the
identifier class; and tokenizing `0xZZ` yields an `InvalidToken` error. -/
theorem c6_numeric_commitment :
    (∀ (stripped : List Char) (line col : Nat), from_str_radix 16 stripped = none →
        make_token ('0' :: 'x' :: stripped) line col = .error .InvalidToken) ∧
    (∀ (stripped : List Char) (line col : Nat), from_str_radix 2 stripped = none →
        make_token ('0' :: 'b' :: stripped) line col = .error .InvalidToken) ∧
    tokenize ("0xZZ".toList) ("test.jasm".toList) =
      some (.error ⟨.InvalidToken, 1, 4, "test.jasm".toList, "0xZZ".toList⟩) := by
  refine ⟨?_, ?_, by decide⟩
  · intro stripped line col h
    unfold make_token
    rw [keywordKind?_cons_none _ _ (by decide) (by decide) (by decide) (by decide) (by decide)
      (by decide) (by decide) (by decide)]
    simp [stripTwo, h]
  · intro stripped line col h
    unfold make_token
    rw [keywordKind?_cons_none _ _ (by decide) (by decide) (by decide) (by decide) (by decide)
      (by decide) (by decide) (by decide)]
    have hbx : ¬(('0' : Char) = '0' ∧ ('b' : Char) = 'x') := by decide
    simp [stripTwo, hbx, h]

/-- Claim C6, witness: the hexadecimal commitment instantiated at the
remainder `Z`, whose base-16 parse fails. -/
theorem c6_numeric_commitment_w :
    make_token ('0' :: 'x' :: ['Z']) 1 4 = .error .InvalidToken :=
  c6_numeric_commitment.1 ['Z'] 1 4 (by decide)

/-- Claim C7: the claim states `0x1F`, `0b101`, `42`, `3.14` tokenize to
`IntegerLiteral(31)`, `IntegerLiteral(5)`, `IntegerLiteral(42)` and
`FloatLiteral(3.14)`.  Because the end-of-input branch drops the last byte
of the run, the code instead classifies `0x1`, `0b10`, `4` and `3.1`,
emitting `IntegerLiteral(1)`, `IntegerLiteral(2)`, `IntegerLiteral(4)` and
a float token for `3.1`.  `make_token` on the full lexemes, and `0x1F`
followed by a space, give the claimed values, so the radix logic itself is
correct and the truncation is the slip. -/
theorem c7_radix_examples_truncated :
    tokenize ("0x1F".toList) ("test.jasm".toList) =
      some (.ok [⟨.IntegerLiteral 1, 1, 2⟩]) ∧
    tokenize ("0b101".toList) ("test.jasm".toList) =
      some (.ok [⟨.IntegerLiteral 2, 1, 2⟩]) ∧
    tokenize ("42".toList) ("test.jasm".toList) =
      some (.ok [⟨.IntegerLiteral 4, 1, 2⟩]) ∧
    make_token ("0x1F".toList) 1 4 = .ok ⟨.IntegerLiteral 31, 1, 1⟩ ∧
    make_token ("0b101".toList) 1 5 = .ok ⟨.IntegerLiteral 5, 1, 1⟩ ∧
    make_token ("42".toList) 1 2 = .ok ⟨.IntegerLiteral 42, 1, 1⟩ ∧
    (∃ v, make_token ("3.14".toList) 1 4 = .ok ⟨.FloatLiteral v, 1, 1⟩) ∧
    tokenize ("0x1F ".toList) ("test.jasm".toList) =
      some (.ok [⟨.IntegerLiteral 31, 1, 1⟩]) := by
  refine ⟨by decide, by decide, by decide, by decide, by decide, by decide, ⟨_, rfl⟩, by decide⟩

/-- Claim C8: if the input ends while a string literal is open, the scan
returns an `UnexpectedEof` error naming the missing quote character and no
token sequence: the string sub-loop reports `UnexpectedEof` whenever the
remaining input contains no byte equal to the opening quote, and the input
`"abc` produces exactly that error. -/
theorem c8_unterminated_string :
    (∀ (code : List Char) (q : Char) (strt line : Nat) (rest : List Char) (x col i : Nat),
        q ∉ rest →
        (scanString code q strt line rest x col i).res =
          .error (.UnexpectedEof (eofExpected q))) ∧
    tokenize ("\"abc".toList) ("test.jasm".toList) =
      some (.error ⟨.UnexpectedEof (eofExpected '"'), 1, 4, "test.jasm".toList,
        "\"abc".toList⟩) := by
  refine ⟨?_, by decide⟩
  intro code q strt line rest x col i hmem
  rw [scanString_no_close code q strt line rest x col i hmem]

/-- Claim C8, witness: the sub-loop property instantiated on the body of
the input `"abc`, which contains no closing double quote. -/
theorem c8_unterminated_string_w :
    (scanString ("\"abc".toList) '"' 0 1 ("abc".toList) 1 1 0).res =
      .error (.UnexpectedEof (eofExpected '"')) :=
  c8_unterminated_string.1 ("\"abc".toList) '"' 0 1 ("abc".toList) 1 1 0 (by decide)

/-- Claim C9: the claim states that for every input the scanner returns
either the complete token sequence or exactly one `LexError`.  On the
valid two-byte UTF-8 input `é` (bytes `C3 A9`) the first byte is an
`UnexpectedCharacter`, and the snippet slice `&code[i - col + 1..=i]`
ends at byte offset 1, inside the two-byte character: a `&str` boundary
violation that panics in every build profile, so the program returns
neither tokens nor an error (`none` in the model; the third conjunct
shows the `none` persists under any extra fuel, so it is the modelled
panic and not fuel exhaustion).  The remaining parts of the claim hold:
the empty input yields the empty token sequence, and an ASCII input whose
first byte fails yields a single error with no partial token list. -/
theorem c9_multibyte_snippet_panic :
    sliceChecked [Char.ofNat 195, Char.ofNat 169] 0 1 = none ∧
    tokenize [Char.ofNat 195, Char.ofNat 169] ("test.jasm".toList) = none ∧
    (∀ extra : Nat,
      lexRun [Char.ofNat 195, Char.ofNat 169] ("test.jasm".toList) (2 + extra) 0 [] 1 1 0 =
        none) ∧
    tokenize ([] : List Char) ("test.jasm".toList) = some (.ok []) ∧
    tokenize ("@ x".toList) ("test.jasm".toList) =
      some (.error ⟨.UnexpectedCharacter '@', 1, 1, "test.jasm".toList, "@".toList⟩) := by
  refine ⟨by decide, by decide, ?_, by decide, by decide⟩
  intro extra
  induction extra with
  | zero => decide
  | succ e ih =>
    show lexRun [Char.ofNat 195, Char.ofNat 169] ("test.jasm".toList) (2 + e + 1) 0 [] 1 1 0 =
      none
    rw [← lexRun_fuel_succ [Char.ofNat 195, Char.ofNat 169] ("test.jasm".toList) (2 + e) 0 []
      1 1 0 (by show (2 : Nat) ≤ 2 + e + 0; omega)]
    exact ih

/-- Claim C10: a maximal decimal-digit run whose value exceeds the `i64`
range is not an error: the `i64` parse fails on the range check, the `f64`
parse accepts the digit string, and `make_token` emits a `FloatLiteral`;
tokenizing twenty `9`s yields a single float token (the scan's end-of-input
truncation leaves nineteen `9`s, still above `i64::MAX`). -/
theorem c10_decimal_overflow_is_float :
    (∀ (lexeme : List Char) (n : Nat) (line col : Nat),
        lexeme.all isDig = true → parseDigits 10 lexeme = some n → i64max < (n : Int) →
        ∃ v, make_token lexeme line col =
          .ok ⟨.FloatLiteral v, line, usub col (usub lexeme.length 1)⟩) ∧
    (∃ v, tokenize ("99999999999999999999".toList) ("test.jasm".toList) =
        some (.ok [⟨.FloatLiteral v, 1, 2⟩])) := by
  refine ⟨?_, ⟨_, rfl⟩⟩
  intro lexeme n line col hall hp hmax
  exact make_token_digit_overflow_float lexeme n line col hall hp hmax

/-- Claim C10, witness: the classifier property instantiated on nineteen
`9`s, whose value 9999999999999999999 exceeds `i64::MAX`. -/
theorem c10_decimal_overflow_is_float_w :
    ∃ v, make_token ("9999999999999999999".toList) 1 20 =
      .ok ⟨.FloatLiteral v, 1, usub 20 (usub ("9999999999999999999".toList).length 1)⟩ :=
  c10_decimal_overflow_is_float.1 ("9999999999999999999".toList) 9999999999999999999 1 20
    (by decide) (by decide) (by decide)

end Lexer
